import Mathlib

/-!
Verification of the reconciliation and transfer engine of `downloader.py`
(class `DownloaderApp`): the download pipeline (`download_photos`), the
removal reconciler (`remove_missing`), the transfer copier (`_copyfileobj`)
and the driver (`run`).

Modelling conventions:
* Byte contents are `List Nat`; a source byte stream is the list of results
  of successive `read()` calls, where `none` models a read that raises and
  an empty chunk (or list end) models end-of-stream.
* The local filesystem of regular files is an association list from absolute
  path to content; `os.path.isfile` is lookup success, `open(path, "wb")`
  followed by a completed copy is `FS.write`.
* `self.logger.level <= logging.INFO` is the boolean parameter `verbose`
  (it only selects which copy routine runs; the tqdm wrapper around the
  collection does not change the iteration).
* Python exceptions that abort the run are `Except.error`; a run that
  raises never reports counters and never reaches the removal step.
* The `logger.debug` calls in the per-item branches are kept as a `log`
  trace so that the per-item classification is observable.
-/

/-- Byte content of a file: a list of byte values. -/
abbrev Bytes := List Nat

/-- A source stream: the successive chunks produced by `read()` calls.
`none` models a read call that raises mid-stream. -/
abbrev ByteStream := List (Option Bytes)

/-- Errors that abort the current pipeline run (propagated Python exceptions). -/
inductive TransferError
  | downloadFailed
  | streamError
deriving DecidableEq, Repr

/-- Model of `shutil.copyfileobj fsrc fdst` (used by `_copyfileobj`, line 223):
repeatedly read a chunk and append it to the already written bytes, stopping at
an empty chunk or end of stream; a raising read propagates the exception.
Returns the full content written to `fdst`, given the bytes already written. -/
def shutil_copyfileobj : ByteStream → Bytes → Except Unit Bytes
  | [], written => .ok written
  | none :: _, _ => .error ()
  | some buf :: rest, written =>
    if buf.isEmpty then .ok written
    else shutil_copyfileobj rest (written ++ buf)

/-- Modelled from the spec: `Copy.fileobj` lives in `utils.py`, which is not
under `src/`; per section 4.2 it streams bytes from the source to the sink in
bounded-size chunks and reports incremental progress via a callback after each
chunk (here the chunk sizes passed to `t.update` are accumulated), with the
declared size playing no role in the copy itself. -/
def Copy_fileobj : ByteStream → Bytes → List Nat → Except Unit (Bytes × List Nat)
  | [], written, calls => .ok (written, calls)
  | none :: _, _, _ => .error ()
  | some buf :: rest, written, calls =>
    if buf.isEmpty then .ok (written, calls)
    else Copy_fileobj rest (written ++ buf) (calls ++ [buf.length])

/-- Model of `DownloaderApp._copyfileobj` (lines 221–228): when the logger is
verbose (`level <= INFO`) or the declared size is not positive, plain
`shutil.copyfileobj` runs; otherwise `Copy.fileobj` runs under a tqdm progress
bar whose `update` is the per-chunk callback.  `size` is the declared size of
the remote item (a non-negative integer, so `size <= 0` is `size == 0`).
Returns the bytes written to the sink. -/
def app_copyfileobj (verbose : Bool) (fsrc : ByteStream) (size : Nat) : Except Unit Bytes :=
  if verbose || size == 0 then
    shutil_copyfileobj fsrc []
  else
    (Copy_fileobj fsrc [] []).map (fun r => r.1)

/-- The string begins with the posix path separator. -/
def beginsWithSep (s : String) : Bool :=
  s.data.head? == some '/'

/-- The string ends with the posix path separator. -/
def endsWithSep (s : String) : Bool :=
  s.data.getLast? == some '/'

/-- Model of `os.path.join` for one destination directory and one relative
name (posix semantics, as used at line 171): an absolute second component
replaces the first; otherwise the components are joined, inserting a
separator unless the first is empty or already ends with one. -/
def osPathJoin (a b : String) : String :=
  if beginsWithSep b then b
  else if a == "" || endsWithSep a then a ++ b
  else a ++ "/" ++ b

/-- The local destination directory: regular files only, as an association
list from absolute path to byte content. -/
abbrev FS := List (String × Bytes)

/-- Content of the regular file at path `p`, if one exists. -/
def FS.lookup (fs : FS) (p : String) : Option Bytes :=
  List.lookup p fs

/-- Model of `os.path.isfile` (line 173): a regular file exists at `p`. -/
def FS.isfile (fs : FS) (p : String) : Bool :=
  (FS.lookup fs p).isSome

/-- Effect on the directory of `open(p, "wb")` followed by a completed copy of
`b`: the file at `p` now has content `b`, every other file is unchanged. -/
def FS.write (fs : FS) (p : String) (b : Bytes) : FS :=
  (p, b) :: fs.filter (fun kv => kv.1 != p)

/-- A remote item as the pipeline consumes it: `filename` and `size` are the
listed attributes; `download` is the result of `photo.download()` followed by
reading `.raw` — `none` models a `download()` call that raises. -/
structure Photo where
  filename : String
  size : Nat
  download : Option ByteStream
deriving DecidableEq

/-- One `logger.debug` call from the per-item branches of `download_photos`
(lines 176, 180, 183). -/
inductive LogEvent
  | skipping (name : String)
  | overwriting (name : String)
  | downloading (name : String)
deriving DecidableEq, Repr

/-- State threaded through the `download_photos` loop: the four counters
(lines 161–164), the ownership set `icloud_photos` (line 165), the destination
directory contents, and the per-item log trace. -/
structure DPState where
  downloaded_count : Nat
  overwritten_count : Nat
  skipped_count : Nat
  total_count : Nat
  icloud_photos : Finset String
  fs : FS
  log : List LogEvent
deriving DecidableEq

/-- Initial state of a pipeline run over destination contents `fs`
(lines 161–165). -/
def initState (fs : FS) : DPState :=
  { downloaded_count := 0
    overwritten_count := 0
    skipped_count := 0
    total_count := 0
    icloud_photos := ∅
    fs := fs
    log := [] }

/-- Lines 181–185: `download = photo.download()`, then
`with open(filename, "wb") as fdst: self._copyfileobj(download.raw, fdst, ...)`,
then `downloaded_count += 1`.  A raising `download()` or a failing copy aborts
the run. -/
def transferPhoto (verbose : Bool) (filename : String) (st : DPState) (photo : Photo) :
    Except TransferError DPState :=
  match photo.download with
  | none => .error TransferError.downloadFailed
  | some stream =>
    let st := { st with log := st.log ++ [LogEvent.downloading photo.filename] }
    match app_copyfileobj verbose stream photo.size with
    | .error _ => .error TransferError.streamError
    | .ok bytes =>
      .ok { st with
              fs := FS.write st.fs filename bytes
              downloaded_count := st.downloaded_count + 1 }

/-- One iteration of the `for photo in collection` loop (lines 169–185):
increment `total_count`, compute the target path, add it to `icloud_photos`
unconditionally, then branch on `os.path.isfile` and the overwrite flag. -/
def processPhoto (verbose : Bool) (dest : String) (overwrite : Bool) (st : DPState)
    (photo : Photo) : Except TransferError DPState :=
  let st := { st with total_count := st.total_count + 1 }
  let filename := osPathJoin dest photo.filename
  let st := { st with icloud_photos := insert filename st.icloud_photos }
  if FS.isfile st.fs filename then
    if !overwrite then
      .ok { st with
              skipped_count := st.skipped_count + 1
              log := st.log ++ [LogEvent.skipping photo.filename] }
    else
      transferPhoto verbose filename
        { st with
            overwritten_count := st.overwritten_count + 1
            log := st.log ++ [LogEvent.overwriting photo.filename] }
        photo
  else
    transferPhoto verbose filename st photo

/-- The `for photo in collection` loop of `download_photos`, itemwise. -/
def download_loop (verbose : Bool) (dest : String) (overwrite : Bool) :
    List Photo → DPState → Except TransferError DPState
  | [], st => .ok st
  | photo :: rest, st =>
    match processPhoto verbose dest overwrite st photo with
    | .error e => .error e
    | .ok st' => download_loop verbose dest overwrite rest st'

/-- Model of `DownloaderApp.download_photos` (lines 152–195): run the loop
over the whole remote listing starting from zero counters, an empty ownership
set and the current destination contents. -/
def download_photos (verbose : Bool) (photos : List Photo) (dest : String)
    (overwrite : Bool) (fs : FS) : Except TransferError DPState :=
  download_loop verbose dest overwrite photos (initState fs)

/-- Kind of a top-level directory entry as `os.scandir` reports it. -/
inductive EntryKind
  | file
  | directory
  | symlink
deriving DecidableEq, Repr

/-- One `os.scandir` entry of the destination directory. -/
structure DirEntry where
  name : String
  path : String
  kind : EntryKind
deriving DecidableEq, Repr

/-- Model of `entry.is_file(follow_symlinks=False)` (line 201): a regular
file, with symbolic links not followed and directories excluded. -/
def DirEntry.isRegularFile (e : DirEntry) : Bool :=
  e.kind == EntryKind.file

/-- Lines 199–203: the candidate-for-removal set — scandir entries that are
regular files (symlinks excluded) whose path is not in `icloud_photos`. -/
def photos_for_removal (entries : List DirEntry) (owned : Finset String) : List DirEntry :=
  entries.filter (fun e => e.isRegularFile && !(decide (e.path ∈ owned)))

/-- Observable outcome of `remove_missing`: the computed candidate set, the
names printed before the prompt, how many times `click.confirm` ran, and the
paths passed to `os.unlink`. -/
structure RemovalResult where
  candidates : List DirEntry
  displayed : List String
  confirmAsked : Nat
  deleted : List String
deriving DecidableEq, Repr

/-- Model of `DownloaderApp.remove_missing` (lines 197–219): compute the
candidate set; if it is empty return immediately; otherwise print the
candidate names, ask `click.confirm` once (its answer is `ans`), and unlink
every candidate exactly when the answer is affirmative. -/
def remove_missing (entries : List DirEntry) (owned : Finset String) (ans : Bool) :
    RemovalResult :=
  let cands := photos_for_removal entries owned
  if cands.isEmpty then
    { candidates := cands, displayed := [], confirmAsked := 0, deleted := [] }
  else
    let disp := cands.map (fun e => e.name)
    if ans then
      { candidates := cands
        displayed := disp
        confirmAsked := 1
        deleted := cands.map (fun e => e.path) }
    else
      { candidates := cands, displayed := disp, confirmAsked := 1, deleted := [] }

/-- Effect of the unlink loop (lines 214–215) on the directory listing. -/
def applyRemoval (entries : List DirEntry) (deleted : List String) : List DirEntry :=
  entries.filter (fun e => !(deleted.contains e.path))

/-- Result of a successful `DownloaderApp.run`: the pipeline state returned by
`download_photos` and, when removal was requested, the removal outcome. -/
structure RunResult where
  pipeline : DPState
  removal : Option RemovalResult
deriving DecidableEq

/-- Model of `DownloaderApp.run` (lines 104–114): run `download_photos`; a
raising pipeline propagates its exception and nothing further runs; on
success, `remove_missing` runs exactly when the `remove` flag is set, over the
scandir listing of the destination after the pipeline (`scandir` abstracts the
listing of the destination directory as a function of its final file
contents). -/
def DownloaderApp.run (verbose : Bool) (photos : List Photo) (dest : String)
    (overwrite removeFlag : Bool) (fs0 : FS) (scandir : FS → List DirEntry)
    (ans : Bool) : Except TransferError RunResult :=
  match download_photos verbose photos dest overwrite fs0 with
  | .error e => .error e
  | .ok st =>
    .ok { pipeline := st
          removal :=
            if removeFlag then
              some (remove_missing (scandir st.fs) st.icloud_photos ans)
            else none }

/-- Handle-lifecycle events of one item transfer (lines 181–184). -/
inductive HandleEvent
  | openSourceStream
  | openSink
  | closeSink
  | closeSourceStream
deriving DecidableEq, Repr

/-- Handle-lifecycle trace of lines 181–184: `photo.download()` acquires the
source stream (its `.raw` handle); `with open(filename, "wb") as fdst:` opens
the sink and — by the semantics of the `with` statement — closes it on both
the normal and the exceptional exit of the block; no statement in the source
ever closes the source stream handle. -/
def transferEvents (verbose : Bool) (photo : Photo) :
    List HandleEvent × Except TransferError Bytes :=
  match photo.download with
  | none => ([], .error TransferError.downloadFailed)
  | some stream =>
    let acquired := [HandleEvent.openSourceStream, HandleEvent.openSink]
    match app_copyfileobj verbose stream photo.size with
    | .error _ => (acquired ++ [HandleEvent.closeSink], .error TransferError.streamError)
    | .ok bytes => (acquired ++ [HandleEvent.closeSink], .ok bytes)

/-- The target path of one remote item (line 171). -/
def targetPath (dest : String) (photo : Photo) : String :=
  osPathJoin dest photo.filename

/-- Bytes that a completed transfer of `photo` writes to its target. -/
def writtenBytes (verbose : Bool) (photo : Photo) : Option Bytes :=
  photo.download.bind (fun stream => (app_copyfileobj verbose stream photo.size).toOption)

deriving instance DecidableEq for Except

/-! ### Basic filesystem lemmas -/

theorem FS.isfile_nil (p : String) : FS.isfile [] p = false := rfl

theorem FS.lookup_write_self (fs : FS) (p : String) (b : Bytes) :
    FS.lookup (FS.write fs p b) p = some b := by
  simp [FS.lookup, FS.write, List.lookup_cons]

theorem FS.lookup_filter_ne (fs : FS) (p q : String) (hqp : q ≠ p) :
    List.lookup q (fs.filter (fun kv => kv.1 != p)) = List.lookup q fs := by
  induction fs with
  | nil => rfl
  | cons kv rest ih =>
    rcases kv with ⟨k, b⟩
    by_cases hk : k = p
    · have hne : (q == k) = false := by
        subst hk; simpa using hqp
      have hfk : ((k, b).1 != p) = false := by simpa using hk
      simp only [List.filter_cons, hfk, Bool.false_eq_true, if_false]
      rw [List.lookup_cons, hne, ih]
    · have hfk : ((k, b).1 != p) = true := by simpa using hk
      simp only [List.filter_cons, hfk, if_true]
      rw [List.lookup_cons, List.lookup_cons]
      cases hq : q == k
      · exact ih
      · rfl

theorem FS.lookup_write_ne (fs : FS) (p q : String) (b : Bytes) (hqp : q ≠ p) :
    FS.lookup (FS.write fs p b) q = FS.lookup fs q := by
  have hne : (q == p) = false := by simpa using hqp
  simp [FS.lookup, FS.write, List.lookup_cons, hne, FS.lookup_filter_ne fs p q hqp]

theorem FS.isfile_write_self (fs : FS) (p : String) (b : Bytes) :
    FS.isfile (FS.write fs p b) p = true := by
  simp [FS.isfile, FS.lookup_write_self]

theorem FS.isfile_write_of_ne (fs : FS) (p q : String) (b : Bytes) (hqp : q ≠ p) :
    FS.isfile (FS.write fs p b) q = FS.isfile fs q := by
  simp [FS.isfile, FS.lookup_write_ne fs p q b hqp]

theorem FS.isfile_of_lookup_some (fs : FS) (p : String) (b : Bytes)
    (h : FS.lookup fs p = some b) : FS.isfile fs p = true := by
  simp [FS.isfile, h]

/-! ### Transfer copier lemmas -/

theorem shutil_copyfileobj_all (chunks : List Bytes) (h : ∀ c ∈ chunks, c ≠ []) :
    ∀ acc : Bytes, shutil_copyfileobj (chunks.map some) acc = .ok (acc ++ chunks.flatten) := by
  induction chunks with
  | nil => intro acc; simp [shutil_copyfileobj]
  | cons c cs ih =>
    intro acc
    have hc : c.isEmpty = false := by
      have : c ≠ [] := h c (List.mem_cons_self c cs)
      simpa [List.isEmpty_iff] using this
    have hcs : ∀ x ∈ cs, x ≠ [] := fun x hx => h x (List.mem_cons_of_mem c hx)
    simp only [List.map_cons, shutil_copyfileobj, hc, Bool.false_eq_true, if_false,
      ih hcs (acc ++ c), List.flatten_cons, List.append_assoc]

theorem Copy_fileobj_all (chunks : List Bytes) (h : ∀ c ∈ chunks, c ≠ []) :
    ∀ (acc : Bytes) (calls : List Nat),
      Copy_fileobj (chunks.map some) acc calls =
        .ok (acc ++ chunks.flatten, calls ++ chunks.map List.length) := by
  induction chunks with
  | nil => intro acc calls; simp [Copy_fileobj]
  | cons c cs ih =>
    intro acc calls
    have hc : c.isEmpty = false := by
      have : c ≠ [] := h c (List.mem_cons_self c cs)
      simpa [List.isEmpty_iff] using this
    have hcs : ∀ x ∈ cs, x ≠ [] := fun x hx => h x (List.mem_cons_of_mem c hx)
    simp only [List.map_cons, Copy_fileobj, hc, Bool.false_eq_true, if_false,
      ih hcs (acc ++ c) (calls ++ [c.length]), List.flatten_cons, List.append_assoc,
      List.singleton_append]

theorem app_copyfileobj_all (verbose : Bool) (size : Nat) (chunks : List Bytes)
    (h : ∀ c ∈ chunks, c ≠ []) :
    app_copyfileobj verbose (chunks.map some) size = .ok chunks.flatten := by
  unfold app_copyfileobj
  by_cases hv : (verbose || size == 0) = true
  · simp only [hv, if_true]
    simpa using shutil_copyfileobj_all chunks h []
  · simp only [hv, if_false]
    rw [Copy_fileobj_all chunks h [] []]
    rfl

/-- C7: for every source stream and every declared size, the transfer copier
`_copyfileobj` writes to the sink exactly the bytes read from the source, in
order, and succeeds regardless of whether the actual byte count agrees with
the declared size — a size mismatch alone never causes failure. -/
theorem c7_copy_ignores_declared_size (verbose : Bool) (size : Nat) (chunks : List Bytes)
    (h : ∀ c ∈ chunks, c ≠ []) :
    app_copyfileobj verbose (chunks.map some) size = .ok chunks.flatten :=
  app_copyfileobj_all verbose size chunks h

set_option maxRecDepth 8000 in
/-- Witness for C7: an item declaring size 1000 whose stream yields 1200 bytes
(a 1024-byte chunk and a 176-byte chunk) is copied whole and reports success. -/
theorem c7_witness :
    (∀ c ∈ [List.replicate 1024 7, List.replicate 176 9], c ≠ []) ∧
      app_copyfileobj false ([List.replicate 1024 7, List.replicate 176 9].map some) 1000 =
        .ok ([List.replicate 1024 7, List.replicate 176 9].flatten) ∧
      ([List.replicate 1024 7, List.replicate 176 9].flatten : Bytes).length = 1200 := by
  refine ⟨by decide, c7_copy_ignores_declared_size false 1000 _ (by decide), by decide⟩

/-! ### Removal reconciler lemmas -/

theorem mem_photos_for_removal (entries : List DirEntry) (owned : Finset String) (e : DirEntry) :
    e ∈ photos_for_removal entries owned ↔
      e ∈ entries ∧ e.kind = EntryKind.file ∧ e.path ∉ owned := by
  simp [photos_for_removal, List.mem_filter, DirEntry.isRegularFile, and_assoc]

theorem remove_missing_deleted_sub (entries : List DirEntry) (owned : Finset String)
    (ans : Bool) :
    (remove_missing entries owned ans).deleted ⊆
      (photos_for_removal entries owned).map (fun e => e.path) := by
  unfold remove_missing
  by_cases h : (photos_for_removal entries owned).isEmpty <;> cases ans <;>
    simp [h, List.nil_subset, List.Subset.refl]

theorem remove_missing_deleted_not_owned (entries : List DirEntry) (owned : Finset String)
    (ans : Bool) (p : String) (hp : p ∈ (remove_missing entries owned ans).deleted) :
    p ∉ owned := by
  have hsub := remove_missing_deleted_sub entries owned ans hp
  rcases List.mem_map.mp hsub with ⟨e, he, rfl⟩
  exact ((mem_photos_for_removal entries owned e).mp he).2.2

theorem remove_missing_not_confirmed (entries : List DirEntry) (owned : Finset String) :
    (remove_missing entries owned false).deleted = [] := by
  unfold remove_missing
  by_cases h : (photos_for_removal entries owned).isEmpty <;> simp [h]

theorem applyRemoval_nil (entries : List DirEntry) : applyRemoval entries [] = entries := by
  simp [applyRemoval]

theorem remove_missing_confirm_count (entries : List DirEntry) (owned : Finset String)
    (ans : Bool) :
    (remove_missing entries owned ans).confirmAsked =
      if (photos_for_removal entries owned).isEmpty then 0 else 1 := by
  unfold remove_missing
  by_cases h : (photos_for_removal entries owned).isEmpty <;> cases ans <;> simp [h]

theorem remove_missing_deleted_ne (entries : List DirEntry) (owned : Finset String)
    (ans : Bool) (h : (remove_missing entries owned ans).deleted ≠ []) :
    ans = true ∧ (remove_missing entries owned ans).confirmAsked = 1 ∧
      (remove_missing entries owned ans).displayed =
        (photos_for_removal entries owned).map (fun e => e.name) ∧
      (remove_missing entries owned ans).deleted =
        (photos_for_removal entries owned).map (fun e => e.path) := by
  unfold remove_missing at h ⊢
  by_cases hemp : (photos_for_removal entries owned).isEmpty <;> cases ans <;>
    simp [hemp] at h ⊢

/-- C3: the removal candidate set consists exactly of the top-level entries
that are regular files (symbolic links and directories excluded) whose path is
not in the ownership set, and consequently no deleted path is ever in the
ownership set, whatever the set contents. -/
theorem c3_removal_candidates (entries : List DirEntry) (owned : Finset String)
    (ans : Bool) (e : DirEntry) (p : String) :
    (e ∈ photos_for_removal entries owned ↔
      e ∈ entries ∧ e.kind = EntryKind.file ∧ e.path ∉ owned) ∧
    (p ∈ (remove_missing entries owned ans).deleted → p ∉ owned) :=
  ⟨mem_photos_for_removal entries owned e,
   fun hp => remove_missing_deleted_not_owned entries owned ans p hp⟩

/-- Witness for C3: with the destination holding the regular file `/d/a.jpg`
and the ownership set `{/d/b.jpg}`, the deleted path `/d/a.jpg` is not owned. -/
theorem c3_witness : ("/d/a.jpg" : String) ∉ ({"/d/b.jpg"} : Finset String) :=
  (c3_removal_candidates [⟨"a.jpg", "/d/a.jpg", EntryKind.file⟩] {"/d/b.jpg"} true
    ⟨"a.jpg", "/d/a.jpg", EntryKind.file⟩ "/d/a.jpg").2 (by decide)

/-- C4: `remove_missing` deletes nothing unless the confirmation answer is
affirmative; the prompt runs exactly once, and only after the full candidate
set is computed and its names displayed; a negative answer deletes zero files
and leaves the directory listing unchanged, regardless of a non-empty
candidate set. -/
theorem c4_confirmation_gate (entries : List DirEntry) (owned : Finset String)
    (ans : Bool) :
    (remove_missing entries owned false).deleted = [] ∧
    applyRemoval entries (remove_missing entries owned false).deleted = entries ∧
    ((remove_missing entries owned ans).confirmAsked =
      if (photos_for_removal entries owned).isEmpty then 0 else 1) ∧
    ((remove_missing entries owned ans).deleted ≠ [] →
      ans = true ∧ (remove_missing entries owned ans).confirmAsked = 1 ∧
        (remove_missing entries owned ans).displayed =
          (photos_for_removal entries owned).map (fun e => e.name) ∧
        (remove_missing entries owned ans).deleted =
          (photos_for_removal entries owned).map (fun e => e.path)) := by
  refine ⟨remove_missing_not_confirmed entries owned, ?_,
    remove_missing_confirm_count entries owned ans,
    remove_missing_deleted_ne entries owned ans⟩
  rw [remove_missing_not_confirmed entries owned]
  exact applyRemoval_nil entries

/-- Witness for C4: a destination with one unowned regular file and an
affirmative answer deletes exactly the candidate paths. -/
theorem c4_witness :
    (remove_missing [⟨"a.jpg", "/d/a.jpg", EntryKind.file⟩] ∅ true).deleted =
      (photos_for_removal [⟨"a.jpg", "/d/a.jpg", EntryKind.file⟩] ∅).map
        (fun e => e.path) :=
  ((c4_confirmation_gate [⟨"a.jpg", "/d/a.jpg", EntryKind.file⟩] ∅ true).2.2.2
    (by decide)).2.2.2

/-- C5: the removal reconciler is reached only after `download_photos` has
returned successfully with its complete state: a raising pipeline makes the
whole run raise with no removal outcome, and when removal is not requested the
pipeline result is still produced with no removal step. -/
theorem c5_removal_only_after_pipeline (verbose : Bool) (photos : List Photo)
    (dest : String) (overwrite removeFlag : Bool) (fs0 : FS)
    (scandir : FS → List DirEntry) (ans : Bool) :
    (∀ e, download_photos verbose photos dest overwrite fs0 = .error e →
      DownloaderApp.run verbose photos dest overwrite removeFlag fs0 scandir ans =
        .error e) ∧
    (∀ st, download_photos verbose photos dest overwrite fs0 = .ok st →
      DownloaderApp.run verbose photos dest overwrite removeFlag fs0 scandir ans =
        .ok { pipeline := st
              removal :=
                if removeFlag then
                  some (remove_missing (scandir st.fs) st.icloud_photos ans)
                else none }) := by
  constructor
  · intro e h
    unfold DownloaderApp.run
    rw [h]
  · intro st h
    unfold DownloaderApp.run
    rw [h]

/-- Witness for C5: a listing whose single item raises on `download()` makes
the run raise with no removal; an empty listing with removal not requested
produces the pipeline result with no removal outcome. -/
theorem c5_witness :
    DownloaderApp.run true [{ filename := "x", size := 0, download := none }] "/d"
        false true [] (fun _ => []) true = .error TransferError.downloadFailed ∧
    DownloaderApp.run true [] "/d" false false [] (fun _ => []) true =
      .ok { pipeline := initState [], removal := none } :=
  ⟨(c5_removal_only_after_pipeline true [{ filename := "x", size := 0, download := none }]
      "/d" false true [] (fun _ => []) true).1 TransferError.downloadFailed (by decide),
   (c5_removal_only_after_pipeline true [] "/d" false false [] (fun _ => []) true).2
      (initState []) (by decide)⟩

/-! ### Download pipeline step lemmas -/

theorem transferPhoto_ok (verbose : Bool) (filename : String) (st : DPState)
    (photo : Photo) (st' : DPState)
    (h : transferPhoto verbose filename st photo = .ok st') :
    ∃ stream bytes, photo.download = some stream ∧
      app_copyfileobj verbose stream photo.size = .ok bytes ∧
      st' = { st with
                log := st.log ++ [LogEvent.downloading photo.filename]
                fs := FS.write st.fs filename bytes
                downloaded_count := st.downloaded_count + 1 } := by
  cases hd : photo.download with
  | none => simp [transferPhoto, hd] at h
  | some stream =>
    cases hc : app_copyfileobj verbose stream photo.size with
    | error e => simp [transferPhoto, hd, hc] at h
    | ok bytes =>
      simp only [transferPhoto, hd, hc, Except.ok.injEq] at h
      exact ⟨stream, bytes, rfl, hc, h.symm⟩

theorem processPhoto_skip (verbose : Bool) (dest : String) (st : DPState) (p : Photo)
    (hf : FS.isfile st.fs (targetPath dest p) = true) :
    processPhoto verbose dest false st p = .ok
      { st with
          total_count := st.total_count + 1
          icloud_photos := insert (targetPath dest p) st.icloud_photos
          skipped_count := st.skipped_count + 1
          log := st.log ++ [LogEvent.skipping p.filename] } := by
  simp only [processPhoto, targetPath] at hf ⊢
  simp [hf]

theorem processPhoto_not_isfile (verbose : Bool) (dest : String) (ow : Bool) (st : DPState)
    (p : Photo) (hf : FS.isfile st.fs (targetPath dest p) = false) :
    processPhoto verbose dest ow st p =
      transferPhoto verbose (targetPath dest p)
        { st with
            total_count := st.total_count + 1
            icloud_photos := insert (targetPath dest p) st.icloud_photos } p := by
  simp only [processPhoto, targetPath] at hf ⊢
  simp [hf]

theorem processPhoto_overwrite (verbose : Bool) (dest : String) (st : DPState) (p : Photo)
    (hf : FS.isfile st.fs (targetPath dest p) = true) :
    processPhoto verbose dest true st p =
      transferPhoto verbose (targetPath dest p)
        { st with
            total_count := st.total_count + 1
            icloud_photos := insert (targetPath dest p) st.icloud_photos
            overwritten_count := st.overwritten_count + 1
            log := st.log ++ [LogEvent.overwriting p.filename] } p := by
  simp only [processPhoto, targetPath] at hf ⊢
  simp [hf]

theorem processPhoto_ok_fields (verbose : Bool) (dest : String) (ow : Bool) (st : DPState)
    (p : Photo) (st' : DPState) (h : processPhoto verbose dest ow st p = .ok st') :
    st'.total_count = st.total_count + 1 ∧
    st'.icloud_photos = insert (targetPath dest p) st.icloud_photos ∧
    st'.skipped_count + st'.downloaded_count = st.skipped_count + st.downloaded_count + 1 ∧
    st.skipped_count ≤ st'.skipped_count ∧
    st.downloaded_count ≤ st'.downloaded_count ∧
    (st.overwritten_count ≤ st.downloaded_count →
      st'.overwritten_count ≤ st'.downloaded_count) ∧
    ∃ tl, st'.log = st.log ++ tl := by
  by_cases hf : FS.isfile st.fs (targetPath dest p) = true
  · cases ow with
    | false =>
      rw [processPhoto_skip verbose dest st p hf] at h
      obtain rfl := Except.ok.inj h
      refine ⟨rfl, rfl, ?_, ?_, ?_, ?_, ⟨[LogEvent.skipping p.filename], rfl⟩⟩ <;>
        dsimp only <;> intros <;> omega
    | true =>
      rw [processPhoto_overwrite verbose dest st p hf] at h
      obtain ⟨stream, bytes, hd, hc, rfl⟩ := transferPhoto_ok _ _ _ _ _ h
      refine ⟨rfl, rfl, ?_, ?_, ?_, ?_,
        ⟨[LogEvent.overwriting p.filename, LogEvent.downloading p.filename], by simp⟩⟩ <;>
        dsimp only <;> intros <;> omega
  · have hf' : FS.isfile st.fs (targetPath dest p) = false := by
      simpa using hf
    rw [processPhoto_not_isfile verbose dest ow st p hf'] at h
    obtain ⟨stream, bytes, hd, hc, rfl⟩ := transferPhoto_ok _ _ _ _ _ h
    refine ⟨rfl, rfl, ?_, ?_, ?_, ?_, ⟨[LogEvent.downloading p.filename], rfl⟩⟩ <;>
      dsimp only <;> intros <;> omega

theorem download_loop_cons_ok (verbose : Bool) (dest : String) (ow : Bool) (p : Photo)
    (ps : List Photo) (st st' : DPState)
    (h : download_loop verbose dest ow (p :: ps) st = .ok st') :
    ∃ stm, processPhoto verbose dest ow st p = .ok stm ∧
      download_loop verbose dest ow ps stm = .ok st' := by
  unfold download_loop at h
  cases hp : processPhoto verbose dest ow st p with
  | error e => rw [hp] at h; cases h
  | ok stm => rw [hp] at h; exact ⟨stm, rfl, h⟩

theorem download_loop_append_ok (verbose : Bool) (dest : String) (ow : Bool)
    (l1 l2 : List Photo) : ∀ st st' : DPState,
    download_loop verbose dest ow (l1 ++ l2) st = .ok st' →
    ∃ stm, download_loop verbose dest ow l1 st = .ok stm ∧
      download_loop verbose dest ow l2 stm = .ok st' := by
  induction l1 with
  | nil => intro st st' h; exact ⟨st, rfl, h⟩
  | cons p ps ih =>
    intro st st' h
    rw [List.cons_append] at h
    obtain ⟨stm, hp, hrest⟩ := download_loop_cons_ok verbose dest ow p (ps ++ l2) st st' h
    obtain ⟨stmid, h1, h2⟩ := ih stm st' hrest
    refine ⟨stmid, ?_, h2⟩
    unfold download_loop
    rw [hp]
    exact h1

theorem download_loop_ok_fields (verbose : Bool) (dest : String) (ow : Bool)
    (ps : List Photo) : ∀ st st' : DPState,
    download_loop verbose dest ow ps st = .ok st' →
    st'.total_count = st.total_count + ps.length ∧
    st'.icloud_photos = st.icloud_photos ∪ (ps.map (targetPath dest)).toFinset ∧
    st'.skipped_count + st'.downloaded_count =
      st.skipped_count + st.downloaded_count + ps.length ∧
    st.skipped_count ≤ st'.skipped_count ∧
    st.downloaded_count ≤ st'.downloaded_count ∧
    (st.overwritten_count ≤ st.downloaded_count →
      st'.overwritten_count ≤ st'.downloaded_count) ∧
    ∃ tl, st'.log = st.log ++ tl := by
  induction ps with
  | nil =>
    intro st st' h
    obtain rfl := Except.ok.inj h
    exact ⟨rfl, by simp, rfl, le_refl _, le_refl _, fun hle => hle, ⟨[], by simp⟩⟩
  | cons p ps ih =>
    intro st st' h
    obtain ⟨stm, hp, hrest⟩ := download_loop_cons_ok verbose dest ow p ps st st' h
    obtain ⟨ht1, hs1, hc1, hsk1, hdl1, how1, tl1, hl1⟩ :=
      processPhoto_ok_fields verbose dest ow st p stm hp
    obtain ⟨ht2, hs2, hc2, hsk2, hdl2, how2, tl2, hl2⟩ := ih stm st' hrest
    refine ⟨?_, ?_, ?_, ?_, ?_, ?_, ⟨tl1 ++ tl2, ?_⟩⟩
    · rw [ht2, ht1, List.length_cons]; omega
    · rw [hs2, hs1, List.map_cons, List.toFinset_cons, Finset.union_insert,
        Finset.insert_union]
    · rw [hc2, hc1, List.length_cons]; omega
    · omega
    · omega
    · exact fun hle => how2 (how1 hle)
    · rw [hl2, hl1, List.append_assoc]

/-! ### Ownership set and counter claims -/

/-- C2: every item's target path enters the ownership set unconditionally
(skip-existing included), so at the end of a completed run the set equals the
set of join(destination, item.name) over all listed items, deduplicated by
path equality. -/
theorem c2_ownership_set_complete (verbose : Bool) (photos : List Photo) (dest : String)
    (ow : Bool) (fs0 : FS) (st : DPState)
    (hok : download_photos verbose photos dest ow fs0 = .ok st) :
    st.icloud_photos = (photos.map (targetPath dest)).toFinset := by
  unfold download_photos at hok
  obtain ⟨-, hset, -, -, -, -, -⟩ :=
    download_loop_ok_fields verbose dest ow photos (initState fs0) st hok
  rw [hset]
  simp [initState]

/-- Witness for C2: a one-item listing over an empty destination ends with the
ownership set holding exactly the item's target path. -/
theorem c2_witness :
    (⟨1, 0, 0, 1, {"/d/a.jpg"}, [("/d/a.jpg", [1, 2, 3])],
        [LogEvent.downloading "a.jpg"]⟩ : DPState).icloud_photos =
      ([{ filename := "a.jpg", size := 3, download := some [some [1, 2, 3]] }].map
        (targetPath "/d")).toFinset :=
  c2_ownership_set_complete true
    [{ filename := "a.jpg", size := 3, download := some [some [1, 2, 3]] }] "/d" false []
    ⟨1, 0, 0, 1, {"/d/a.jpg"}, [("/d/a.jpg", [1, 2, 3])], [LogEvent.downloading "a.jpg"]⟩
    (by decide)

/-- C10: at completion of every pipeline run, skipped + downloaded equals
total (the downloaded counter counts every item actually transferred, both
download-new and overwrite-existing), and overwritten never exceeds
downloaded. -/
theorem c10_counter_invariant (verbose : Bool) (photos : List Photo) (dest : String)
    (ow : Bool) (fs0 : FS) (st : DPState)
    (hok : download_photos verbose photos dest ow fs0 = .ok st) :
    st.skipped_count + st.downloaded_count = st.total_count ∧
    st.overwritten_count ≤ st.downloaded_count := by
  unfold download_photos at hok
  obtain ⟨ht, -, hc, -, -, how, -⟩ :=
    download_loop_ok_fields verbose dest ow photos (initState fs0) st hok
  simp only [initState] at ht hc how
  exact ⟨by omega, how (Nat.le_refl 0)⟩

/-- Witness for C10: an overwriting run with one item ends with skipped 0,
downloaded 1, overwritten 1, total 1, satisfying both inequalities. -/
theorem c10_witness :
    (⟨1, 1, 0, 1, {"/d/b.jpg"}, [("/d/b.jpg", [7, 7])],
        [LogEvent.overwriting "b.jpg", LogEvent.downloading "b.jpg"]⟩ : DPState).skipped_count +
      (⟨1, 1, 0, 1, {"/d/b.jpg"}, [("/d/b.jpg", [7, 7])],
        [LogEvent.overwriting "b.jpg", LogEvent.downloading "b.jpg"]⟩ : DPState).downloaded_count =
      (⟨1, 1, 0, 1, {"/d/b.jpg"}, [("/d/b.jpg", [7, 7])],
        [LogEvent.overwriting "b.jpg", LogEvent.downloading "b.jpg"]⟩ : DPState).total_count ∧
    (⟨1, 1, 0, 1, {"/d/b.jpg"}, [("/d/b.jpg", [7, 7])],
        [LogEvent.overwriting "b.jpg", LogEvent.downloading "b.jpg"]⟩ : DPState).overwritten_count ≤
      (⟨1, 1, 0, 1, {"/d/b.jpg"}, [("/d/b.jpg", [7, 7])],
        [LogEvent.overwriting "b.jpg", LogEvent.downloading "b.jpg"]⟩ : DPState).downloaded_count :=
  c10_counter_invariant true
    [{ filename := "b.jpg", size := 2, download := some [some [7, 7]] }] "/d" true
    [("/d/b.jpg", [0])]
    ⟨1, 1, 0, 1, {"/d/b.jpg"}, [("/d/b.jpg", [7, 7])],
      [LogEvent.overwriting "b.jpg", LogEvent.downloading "b.jpg"]⟩
    (by decide)

/-- C6 counterexample: an overwriting run with a single item that already
exists locally completes with skipped 0, downloaded 1, overwritten 1,
total 1 — the overwrite branch increments both `overwritten_count` and
`downloaded_count` — so skipped + downloaded + overwritten is 2, not total. -/
theorem c6_counterexample :
    download_photos true [{ filename := "b.jpg", size := 2, download := some [some [7, 7]] }]
        "/d" true [("/d/b.jpg", [0])] =
      .ok ⟨1, 1, 0, 1, {"/d/b.jpg"}, [("/d/b.jpg", [7, 7])],
        [LogEvent.overwriting "b.jpg", LogEvent.downloading "b.jpg"]⟩ ∧
    (⟨1, 1, 0, 1, {"/d/b.jpg"}, [("/d/b.jpg", [7, 7])],
        [LogEvent.overwriting "b.jpg", LogEvent.downloading "b.jpg"]⟩ : DPState).skipped_count +
      (⟨1, 1, 0, 1, {"/d/b.jpg"}, [("/d/b.jpg", [7, 7])],
        [LogEvent.overwriting "b.jpg", LogEvent.downloading "b.jpg"]⟩ : DPState).downloaded_count +
      (⟨1, 1, 0, 1, {"/d/b.jpg"}, [("/d/b.jpg", [7, 7])],
        [LogEvent.overwriting "b.jpg", LogEvent.downloading "b.jpg"]⟩ : DPState).overwritten_count ≠
      (⟨1, 1, 0, 1, {"/d/b.jpg"}, [("/d/b.jpg", [7, 7])],
        [LogEvent.overwriting "b.jpg", LogEvent.downloading "b.jpg"]⟩ : DPState).total_count :=
  ⟨by decide, by decide⟩

/-- C6 (amended): each classification outcome mutates the counters as the code
does — skip-existing increments only skipped; download-new increments only
downloaded; overwrite-existing increments both overwritten and downloaded;
total is incremented once per item regardless of branch — hence per item
skipped + downloaded grows by exactly one. -/
theorem c6_counter_mutation (verbose : Bool) (dest : String) (ow : Bool) (st : DPState)
    (p : Photo) (st' : DPState) (h : processPhoto verbose dest ow st p = .ok st') :
    st'.total_count = st.total_count + 1 ∧
    (FS.isfile st.fs (targetPath dest p) = true → ow = false →
      st'.skipped_count = st.skipped_count + 1 ∧
      st'.downloaded_count = st.downloaded_count ∧
      st'.overwritten_count = st.overwritten_count) ∧
    (FS.isfile st.fs (targetPath dest p) = true → ow = true →
      st'.overwritten_count = st.overwritten_count + 1 ∧
      st'.downloaded_count = st.downloaded_count + 1 ∧
      st'.skipped_count = st.skipped_count) ∧
    (FS.isfile st.fs (targetPath dest p) = false →
      st'.downloaded_count = st.downloaded_count + 1 ∧
      st'.skipped_count = st.skipped_count ∧
      st'.overwritten_count = st.overwritten_count) ∧
    st'.skipped_count + st'.downloaded_count = st.skipped_count + st.downloaded_count + 1 := by
  by_cases hf : FS.isfile st.fs (targetPath dest p) = true
  · cases ow with
    | false =>
      rw [processPhoto_skip verbose dest st p hf] at h
      obtain rfl := Except.ok.inj h
      refine ⟨rfl, ?_, ?_, ?_, ?_⟩
      · intro _ _
        exact ⟨rfl, rfl, rfl⟩
      · intro _ hcontra
        exact Bool.noConfusion hcontra
      · intro hff
        rw [hf] at hff
        exact Bool.noConfusion hff
      · dsimp only
        omega
    | true =>
      rw [processPhoto_overwrite verbose dest st p hf] at h
      obtain ⟨stream, bytes, hd, hc, rfl⟩ := transferPhoto_ok _ _ _ _ _ h
      refine ⟨rfl, ?_, ?_, ?_, ?_⟩
      · intro _ hcontra
        exact Bool.noConfusion hcontra
      · intro _ _
        exact ⟨rfl, rfl, rfl⟩
      · intro hff
        rw [hf] at hff
        exact Bool.noConfusion hff
      · dsimp only
        omega
  · have hf' : FS.isfile st.fs (targetPath dest p) = false := by simpa using hf
    rw [processPhoto_not_isfile verbose dest ow st p hf'] at h
    obtain ⟨stream, bytes, hd, hc, rfl⟩ := transferPhoto_ok _ _ _ _ _ h
    refine ⟨rfl, ?_, ?_, ?_, ?_⟩
    · intro hcontra _
      rw [hf'] at hcontra
      exact Bool.noConfusion hcontra
    · intro hcontra _
      rw [hf'] at hcontra
      exact Bool.noConfusion hcontra
    · intro _
      exact ⟨rfl, rfl, rfl⟩
    · dsimp only
      omega

/-- Witness for C6 (amended): the overwrite step on an existing file takes the
overwrite branch and increments both overwritten and downloaded. -/
theorem c6_witness :
    (⟨1, 1, 0, 1, {"/d/b.jpg"}, [("/d/b.jpg", [7, 7])],
        [LogEvent.overwriting "b.jpg", LogEvent.downloading "b.jpg"]⟩ : DPState).overwritten_count =
      (initState [("/d/b.jpg", [0])]).overwritten_count + 1 ∧
    (⟨1, 1, 0, 1, {"/d/b.jpg"}, [("/d/b.jpg", [7, 7])],
        [LogEvent.overwriting "b.jpg", LogEvent.downloading "b.jpg"]⟩ : DPState).downloaded_count =
      (initState [("/d/b.jpg", [0])]).downloaded_count + 1 ∧
    (⟨1, 1, 0, 1, {"/d/b.jpg"}, [("/d/b.jpg", [7, 7])],
        [LogEvent.overwriting "b.jpg", LogEvent.downloading "b.jpg"]⟩ : DPState).skipped_count =
      (initState [("/d/b.jpg", [0])]).skipped_count :=
  (c6_counter_mutation true "/d" true (initState [("/d/b.jpg", [0])])
    { filename := "b.jpg", size := 2, download := some [some [7, 7]] }
    ⟨1, 1, 0, 1, {"/d/b.jpg"}, [("/d/b.jpg", [7, 7])],
      [LogEvent.overwriting "b.jpg", LogEvent.downloading "b.jpg"]⟩
    (by decide)).2.2.1 (by decide) rfl

/-- C1: for every processed item the pipeline adds join(destination, name) —
the target path — to the ownership set, and the branch taken is exactly
skip-existing when a regular file exists at the target path and the overwrite
flag is false, overwrite-existing when a regular file exists there and the
flag is true, and download-new when no file exists there, as witnessed by the
per-item debug-log trace. -/
theorem c1_classification (verbose : Bool) (dest : String) (ow : Bool) (st : DPState)
    (p : Photo) (st' : DPState) (h : processPhoto verbose dest ow st p = .ok st') :
    st'.icloud_photos = insert (targetPath dest p) st.icloud_photos ∧
    (st'.log = st.log ++ [LogEvent.skipping p.filename] ↔
      FS.isfile st.fs (targetPath dest p) = true ∧ ow = false) ∧
    (st'.log = st.log ++
        [LogEvent.overwriting p.filename, LogEvent.downloading p.filename] ↔
      FS.isfile st.fs (targetPath dest p) = true ∧ ow = true) ∧
    (st'.log = st.log ++ [LogEvent.downloading p.filename] ↔
      FS.isfile st.fs (targetPath dest p) = false) := by
  by_cases hf : FS.isfile st.fs (targetPath dest p) = true
  · cases ow with
    | false =>
      rw [processPhoto_skip verbose dest st p hf] at h
      obtain rfl := Except.ok.inj h
      refine ⟨rfl, ?_, ?_, ?_⟩ <;> simp [List.append_right_inj, hf]
    | true =>
      rw [processPhoto_overwrite verbose dest st p hf] at h
      obtain ⟨stream, bytes, hd, hc, rfl⟩ := transferPhoto_ok _ _ _ _ _ h
      refine ⟨rfl, ?_, ?_, ?_⟩ <;> simp [List.append_assoc, List.append_right_inj, hf]
  · have hf' : FS.isfile st.fs (targetPath dest p) = false := by simpa using hf
    rw [processPhoto_not_isfile verbose dest ow st p hf'] at h
    obtain ⟨stream, bytes, hd, hc, rfl⟩ := transferPhoto_ok _ _ _ _ _ h
    refine ⟨rfl, ?_, ?_, ?_⟩ <;> simp [List.append_right_inj, hf']

/-- Witness for C1: with `/d/b.jpg` already on disk and the overwrite flag
unset, the processed item maps to target path join(/d, b.jpg), which enters
the ownership set, and the branch is skip-existing. -/
theorem c1_witness :
    (⟨0, 0, 1, 1, {"/d/b.jpg"}, [("/d/b.jpg", [0])],
        [LogEvent.skipping "b.jpg"]⟩ : DPState).icloud_photos =
      insert (targetPath "/d" { filename := "b.jpg", size := 1, download := some [some [5]] })
        (initState [("/d/b.jpg", [0])]).icloud_photos :=
  (c1_classification true "/d" false (initState [("/d/b.jpg", [0])])
    { filename := "b.jpg", size := 1, download := some [some [5]] }
    ⟨0, 0, 1, 1, {"/d/b.jpg"}, [("/d/b.jpg", [0])], [LogEvent.skipping "b.jpg"]⟩
    (by decide)).1

/-- C8 counterexample: on the error path where the copy fails mid-stream, the
transfer's handle trace closes the sink (the `with` block) but contains no
close of the source stream — `download.raw` is never explicitly released. -/
theorem c8_counterexample :
    (transferEvents true { filename := "x", size := 0, download := some [none] }).2 =
      .error TransferError.streamError ∧
    HandleEvent.closeSourceStream ∉
      (transferEvents true { filename := "x", size := 0, download := some [none] }).1 :=
  ⟨by decide, by decide⟩

/-- C8 (amended): on every exit path of a single item's transfer on which the
source stream was acquired — the copy succeeding or failing mid-stream — the
sink file handle is opened and closed before control leaves the transfer,
while the source stream handle is never explicitly closed on any path. -/
theorem c8_sink_released (verbose : Bool) (p : Photo) (stream : ByteStream)
    (hd : p.download = some stream) :
    HandleEvent.openSink ∈ (transferEvents verbose p).1 ∧
    HandleEvent.closeSink ∈ (transferEvents verbose p).1 ∧
    HandleEvent.closeSourceStream ∉ (transferEvents verbose p).1 := by
  unfold transferEvents
  rw [hd]
  cases hc : app_copyfileobj verbose stream p.size <;> simp [hc]

/-- Witness for C8 (amended): a successful one-chunk transfer opens and closes
the sink and never closes the source stream. -/
theorem c8_witness :
    HandleEvent.openSink ∈
      (transferEvents false { filename := "y", size := 3, download := some [some [1, 2, 3]] }).1 ∧
    HandleEvent.closeSink ∈
      (transferEvents false { filename := "y", size := 3, download := some [some [1, 2, 3]] }).1 ∧
    HandleEvent.closeSourceStream ∉
      (transferEvents false { filename := "y", size := 3, download := some [some [1, 2, 3]] }).1 :=
  c8_sink_released false { filename := "y", size := 3, download := some [some [1, 2, 3]] }
    [some [1, 2, 3]] rfl

/-! ### Duplicate-target lemmas (overwrite flag unset) -/

theorem processPhoto_preserves_file (verbose : Bool) (dest : String) (st : DPState)
    (p : Photo) (st' : DPState) (q : String) (c : Bytes)
    (hl : FS.lookup st.fs q = some c)
    (h : processPhoto verbose dest false st p = .ok st') :
    FS.lookup st'.fs q = some c := by
  by_cases hf : FS.isfile st.fs (targetPath dest p) = true
  · rw [processPhoto_skip verbose dest st p hf] at h
    obtain rfl := Except.ok.inj h
    exact hl
  · have hf' : FS.isfile st.fs (targetPath dest p) = false := by simpa using hf
    rw [processPhoto_not_isfile verbose dest false st p hf'] at h
    obtain ⟨stream, bytes, hd, hcopy, rfl⟩ := transferPhoto_ok _ _ _ _ _ h
    have hne : q ≠ targetPath dest p := by
      intro he
      rw [he] at hl
      have hq := FS.isfile_of_lookup_some st.fs (targetPath dest p) c hl
      rw [hf'] at hq
      exact Bool.noConfusion hq
    show FS.lookup (FS.write st.fs (targetPath dest p) bytes) q = some c
    rw [FS.lookup_write_ne st.fs (targetPath dest p) q bytes hne]
    exact hl

theorem download_loop_preserves_file (verbose : Bool) (dest : String) (ps : List Photo) :
    ∀ (st st' : DPState) (q : String) (c : Bytes),
    FS.lookup st.fs q = some c →
    download_loop verbose dest false ps st = .ok st' →
    FS.lookup st'.fs q = some c := by
  induction ps with
  | nil =>
    intro st st' q c hl h
    obtain rfl := Except.ok.inj h
    exact hl
  | cons p ps ih =>
    intro st st' q c hl h
    obtain ⟨stm, hp, hrest⟩ := download_loop_cons_ok verbose dest false p ps st st' h
    exact ih stm st' q c (processPhoto_preserves_file verbose dest st p stm q c hl hp) hrest

theorem processPhoto_isfile_source (verbose : Bool) (dest : String) (ow : Bool)
    (st : DPState) (p : Photo) (st' : DPState) (q : String)
    (h : processPhoto verbose dest ow st p = .ok st')
    (hq : FS.isfile st'.fs q = true) :
    FS.isfile st.fs q = true ∨ q = targetPath dest p := by
  by_cases hqt : q = targetPath dest p
  · exact Or.inr hqt
  · refine Or.inl ?_
    by_cases hf : FS.isfile st.fs (targetPath dest p) = true
    · cases ow with
      | false =>
        rw [processPhoto_skip verbose dest st p hf] at h
        obtain rfl := Except.ok.inj h
        exact hq
      | true =>
        rw [processPhoto_overwrite verbose dest st p hf] at h
        obtain ⟨stream, bytes, hd, hcopy, rfl⟩ := transferPhoto_ok _ _ _ _ _ h
        have hq' : FS.isfile (FS.write st.fs (targetPath dest p) bytes) q = true := hq
        rw [FS.isfile_write_of_ne st.fs (targetPath dest p) q bytes hqt] at hq'
        exact hq'
    · have hf' : FS.isfile st.fs (targetPath dest p) = false := by simpa using hf
      rw [processPhoto_not_isfile verbose dest ow st p hf'] at h
      obtain ⟨stream, bytes, hd, hcopy, rfl⟩ := transferPhoto_ok _ _ _ _ _ h
      have hq' : FS.isfile (FS.write st.fs (targetPath dest p) bytes) q = true := hq
      rw [FS.isfile_write_of_ne st.fs (targetPath dest p) q bytes hqt] at hq'
      exact hq'

theorem download_loop_isfile_source (verbose : Bool) (dest : String) (ow : Bool)
    (ps : List Photo) : ∀ (st st' : DPState) (q : String),
    download_loop verbose dest ow ps st = .ok st' →
    FS.isfile st'.fs q = true →
    FS.isfile st.fs q = true ∨ q ∈ ps.map (targetPath dest) := by
  induction ps with
  | nil =>
    intro st st' q h hq
    obtain rfl := Except.ok.inj h
    exact Or.inl hq
  | cons p ps ih =>
    intro st st' q h hq
    obtain ⟨stm, hp, hrest⟩ := download_loop_cons_ok verbose dest ow p ps st st' h
    rcases ih stm st' q hrest hq with hm | hmem
    · rcases processPhoto_isfile_source verbose dest ow st p stm q hp hm with h1 | h2
      · exact Or.inl h1
      · refine Or.inr ?_
        rw [List.map_cons, h2]
        exact List.mem_cons_self _ _
    · refine Or.inr ?_
      rw [List.map_cons]
      exact List.mem_cons_of_mem _ hmem

theorem processPhoto_log_single (verbose : Bool) (dest : String) (st : DPState)
    (p : Photo) (st' : DPState) (h : processPhoto verbose dest false st p = .ok st') :
    ∃ ev, st'.log = st.log ++ [ev] := by
  by_cases hf : FS.isfile st.fs (targetPath dest p) = true
  · rw [processPhoto_skip verbose dest st p hf] at h
    obtain rfl := Except.ok.inj h
    exact ⟨LogEvent.skipping p.filename, rfl⟩
  · have hf' : FS.isfile st.fs (targetPath dest p) = false := by simpa using hf
    rw [processPhoto_not_isfile verbose dest false st p hf'] at h
    obtain ⟨stream, bytes, hd, hcopy, rfl⟩ := transferPhoto_ok _ _ _ _ _ h
    exact ⟨LogEvent.downloading p.filename, rfl⟩

theorem download_loop_log_length (verbose : Bool) (dest : String) (ps : List Photo) :
    ∀ st st' : DPState,
    download_loop verbose dest false ps st = .ok st' →
    st'.log.length = st.log.length + ps.length := by
  induction ps with
  | nil =>
    intro st st' h
    obtain rfl := Except.ok.inj h
    simp
  | cons p ps ih =>
    intro st st' h
    obtain ⟨stm, hp, hrest⟩ := download_loop_cons_ok verbose dest false p ps st st' h
    obtain ⟨ev, hev⟩ := processPhoto_log_single verbose dest st p stm hp
    have := ih stm st' hrest
    rw [this, hev]
    simp
    omega

theorem mem_take_getElem (l : List Photo) (n : Nat) (x : Photo) (h : x ∈ l.take n) :
    ∃ k, k < n ∧ l[k]? = some x := by
  obtain ⟨k, hk⟩ := List.mem_iff_getElem?.mp h
  have hkn : k < n := by
    obtain ⟨hlt, -⟩ := List.getElem?_eq_some.mp hk
    rw [List.length_take] at hlt
    omega
  refine ⟨k, hkn, ?_⟩
  rw [List.getElem?_take] at hk
  simpa [hkn] using hk

theorem c9_main (verbose : Bool) (dest : String) (A1 A2 B : List Photo)
    (pFst pDup : Photo) (st : DPState)
    (hdup : targetPath dest pFst = targetPath dest pDup)
    (hfirst : ∀ pk ∈ A1, targetPath dest pk ≠ targetPath dest pFst)
    (hok : download_loop verbose dest false (A1 ++ pFst :: (A2 ++ pDup :: B))
      (initState []) = .ok st) :
    FS.lookup st.fs (targetPath dest pFst) = writtenBytes verbose pFst ∧
    writtenBytes verbose pFst ≠ none ∧
    st.log[A1.length + 1 + A2.length]? = some (LogEvent.skipping pDup.filename) ∧
    st.downloaded_count < (A1 ++ pFst :: (A2 ++ pDup :: B)).length := by
  obtain ⟨hT, -, hSum, -, -, -, -⟩ :=
    download_loop_ok_fields verbose dest false (A1 ++ pFst :: (A2 ++ pDup :: B))
      (initState []) st hok
  obtain ⟨stA, hA, hrest⟩ :=
    download_loop_append_ok verbose dest false A1 _ (initState []) st hok
  obtain ⟨stB, hpi, hrest2⟩ := download_loop_cons_ok verbose dest false pFst _ stA st hrest
  have hAfs : FS.isfile stA.fs (targetPath dest pFst) = false := by
    cases hcase : FS.isfile stA.fs (targetPath dest pFst) with
    | false => rfl
    | true =>
      rcases download_loop_isfile_source verbose dest false A1 (initState []) stA
          (targetPath dest pFst) hA hcase with h0 | hmem
      · exact Bool.noConfusion h0
      · rcases List.mem_map.mp hmem with ⟨pk, hpk, hpkt⟩
        exact absurd hpkt (hfirst pk hpk)
  rw [processPhoto_not_isfile verbose dest false stA pFst hAfs] at hpi
  obtain ⟨stream, bytes, hd, hcopy, rfl⟩ := transferPhoto_ok _ _ _ _ _ hpi
  have hW : writtenBytes verbose pFst = some bytes := by
    unfold writtenBytes
    rw [hd]
    simp [hcopy, Except.toOption]
  have hlookB : FS.lookup (FS.write stA.fs (targetPath dest pFst) bytes)
      (targetPath dest pFst) = some bytes :=
    FS.lookup_write_self stA.fs (targetPath dest pFst) bytes
  obtain ⟨stC, hA2, hrest3⟩ :=
    download_loop_append_ok verbose dest false A2 (pDup :: B) _ st hrest2
  have hlookC : FS.lookup stC.fs (targetPath dest pFst) = some bytes :=
    download_loop_preserves_file verbose dest A2 _ stC (targetPath dest pFst) bytes
      hlookB hA2
  have hfileC : FS.isfile stC.fs (targetPath dest pDup) = true := by
    rw [← hdup]
    exact FS.isfile_of_lookup_some stC.fs (targetPath dest pFst) bytes hlookC
  obtain ⟨stD, hpj, hB⟩ := download_loop_cons_ok verbose dest false pDup B stC st hrest3
  rw [processPhoto_skip verbose dest stC pDup hfileC] at hpj
  obtain rfl := Except.ok.inj hpj
  have hlookF : FS.lookup st.fs (targetPath dest pFst) = some bytes := by
    refine download_loop_preserves_file verbose dest B _ st (targetPath dest pFst) bytes
      ?_ hB
    exact hlookC
  have hlenA : stA.log.length = A1.length := by
    have hll := download_loop_log_length verbose dest A1 (initState []) stA hA
    simpa [initState] using hll
  have hlenC : stC.log.length = A1.length + 1 + A2.length := by
    have hll := download_loop_log_length verbose dest A2 _ stC hA2
    rw [hll]
    show (stA.log ++ [LogEvent.downloading pFst.filename]).length + A2.length =
      A1.length + 1 + A2.length
    simp [hlenA]
  obtain ⟨-, -, -, hskD, -, -, tl, hlog⟩ :=
    download_loop_ok_fields verbose dest false B _ st hB
  have hgetj : st.log[A1.length + 1 + A2.length]? =
      some (LogEvent.skipping pDup.filename) := by
    rw [hlog]
    show ((stC.log ++ [LogEvent.skipping pDup.filename]) ++ tl)[A1.length + 1 + A2.length]? = _
    rw [List.append_assoc, List.getElem?_append_right (le_of_eq hlenC)]
    simp [hlenC]
  have hsk1 : 1 ≤ st.skipped_count := by
    have hle : stC.skipped_count + 1 ≤ st.skipped_count := hskD
    omega
  simp only [initState] at hT hSum
  refine ⟨?_, ?_, hgetj, ?_⟩
  · rw [hW]
    exact hlookF
  · rw [hW]
    simp
  · omega

/-- C9: if the listing holds two items with the same target path, the
overwrite flag is false and the destination starts empty, then the first
occurrence is downloaded and the later occurrence is classified skip-existing
(the file written by the first occurrence now exists), the first occurrence's
content stays in place, and the downloaded counter ends strictly below the
listing's length. -/
theorem c9_duplicate_target (verbose : Bool) (photos : List Photo) (dest : String)
    (i j : Nat) (pFst pDup : Photo) (st : DPState)
    (hij : i < j)
    (hgi : photos[i]? = some pFst) (hgj : photos[j]? = some pDup)
    (hdup : targetPath dest pFst = targetPath dest pDup)
    (hfirst : ∀ k pk, k < i → photos[k]? = some pk →
      targetPath dest pk ≠ targetPath dest pFst)
    (hok : download_photos verbose photos dest false [] = .ok st) :
    st.downloaded_count < photos.length ∧
    st.log[j]? = some (LogEvent.skipping pDup.filename) ∧
    FS.lookup st.fs (targetPath dest pFst) = writtenBytes verbose pFst ∧
    writtenBytes verbose pFst ≠ none := by
  obtain ⟨hi_lt, hgi_eq⟩ := List.getElem?_eq_some.mp hgi
  obtain ⟨hj_lt, hgj_eq⟩ := List.getElem?_eq_some.mp hgj
  have hR : (photos.drop (i + 1))[j - i - 1]? = some pDup := by
    rw [List.getElem?_drop]
    have harith : i + 1 + (j - i - 1) = j := by omega
    rw [harith]
    exact hgj
  obtain ⟨hlt2, hR_eq⟩ := List.getElem?_eq_some.mp hR
  have e1 : photos.drop i = pFst :: photos.drop (i + 1) := by
    rw [List.drop_eq_getElem_cons hi_lt, hgi_eq]
  have e2 : (photos.drop (i + 1)).drop (j - i - 1) =
      pDup :: (photos.drop (i + 1)).drop (j - i) := by
    rw [List.drop_eq_getElem_cons hlt2, hR_eq]
    have harith2 : j - i - 1 + 1 = j - i := by omega
    rw [harith2]
  have e3 : photos.drop (i + 1) =
      (photos.drop (i + 1)).take (j - i - 1) ++
        pDup :: (photos.drop (i + 1)).drop (j - i) := by
    conv_rhs => rw [← e2]
    exact (List.take_append_drop _ _).symm
  have hsplit : photos = photos.take i ++ pFst ::
      ((photos.drop (i + 1)).take (j - i - 1) ++ pDup ::
        (photos.drop (i + 1)).drop (j - i)) := by
    conv_lhs => rw [← List.take_append_drop i photos, e1, e3]
  have hok' : download_loop verbose dest false
      (photos.take i ++ pFst :: ((photos.drop (i + 1)).take (j - i - 1) ++ pDup ::
        (photos.drop (i + 1)).drop (j - i))) (initState []) = .ok st := by
    rw [← hsplit]
    exact hok
  have hfirstA : ∀ pk ∈ photos.take i, targetPath dest pk ≠ targetPath dest pFst := by
    intro pk hpk
    obtain ⟨k, hki, hkeq⟩ := mem_take_getElem photos i pk hpk
    exact hfirst k pk hki hkeq
  obtain ⟨hlook, hWne, hget, hdl⟩ := c9_main verbose dest (photos.take i)
    ((photos.drop (i + 1)).take (j - i - 1)) ((photos.drop (i + 1)).drop (j - i))
    pFst pDup st hdup hfirstA hok'
  have hlenA1 : (photos.take i).length = i := by
    rw [List.length_take]
    exact min_eq_left (le_of_lt hi_lt)
  have hlenA2 : ((photos.drop (i + 1)).take (j - i - 1)).length = j - i - 1 := by
    rw [List.length_take, List.length_drop]
    exact min_eq_left (by omega)
  have hidx : (photos.take i).length + 1 +
      ((photos.drop (i + 1)).take (j - i - 1)).length = j := by
    rw [hlenA1, hlenA2]
    omega
  rw [hidx] at hget
  have hlenL : (photos.take i ++ pFst :: ((photos.drop (i + 1)).take (j - i - 1) ++ pDup ::
      (photos.drop (i + 1)).drop (j - i))).length = photos.length := by
    rw [← hsplit]
  rw [hlenL] at hdl
  exact ⟨hdl, hget, hlook, hWne⟩

/-- Witness for C9: a two-item listing where both items are named a.jpg, run
with the overwrite flag unset against an empty destination: one download, the
second occurrence skipped, the first occurrence's bytes in place, and the
downloaded counter strictly below the listing length. -/
theorem c9_witness :
    (⟨1, 0, 1, 2, {"/d/a.jpg"}, [("/d/a.jpg", [1, 2, 3])],
        [LogEvent.downloading "a.jpg", LogEvent.skipping "a.jpg"]⟩ : DPState).downloaded_count <
      ([{ filename := "a.jpg", size := 3, download := some [some [1, 2, 3]] },
        { filename := "a.jpg", size := 2, download := some [some [9, 9]] }] : List Photo).length ∧
    (⟨1, 0, 1, 2, {"/d/a.jpg"}, [("/d/a.jpg", [1, 2, 3])],
        [LogEvent.downloading "a.jpg", LogEvent.skipping "a.jpg"]⟩ : DPState).log[1]? =
      some (LogEvent.skipping "a.jpg") ∧
    FS.lookup (⟨1, 0, 1, 2, {"/d/a.jpg"}, [("/d/a.jpg", [1, 2, 3])],
        [LogEvent.downloading "a.jpg", LogEvent.skipping "a.jpg"]⟩ : DPState).fs
        (targetPath "/d" { filename := "a.jpg", size := 3, download := some [some [1, 2, 3]] }) =
      writtenBytes true { filename := "a.jpg", size := 3, download := some [some [1, 2, 3]] } ∧
    writtenBytes true { filename := "a.jpg", size := 3, download := some [some [1, 2, 3]] } ≠
      none :=
  c9_duplicate_target true
    [{ filename := "a.jpg", size := 3, download := some [some [1, 2, 3]] },
     { filename := "a.jpg", size := 2, download := some [some [9, 9]] }] "/d" 0 1
    { filename := "a.jpg", size := 3, download := some [some [1, 2, 3]] }
    { filename := "a.jpg", size := 2, download := some [some [9, 9]] }
    ⟨1, 0, 1, 2, {"/d/a.jpg"}, [("/d/a.jpg", [1, 2, 3])],
      [LogEvent.downloading "a.jpg", LogEvent.skipping "a.jpg"]⟩
    (by decide) (by decide) (by decide) (by decide)
    (fun k pk hk _ => absurd hk (Nat.not_lt_zero k))
    (by decide)
